import Mathlib

set_option linter.unusedVariables false

namespace Tbox

/-- JSON-like values as produced by Python's `json.load`: `null`, booleans,
numbers (modelled as integers — the archives only carry integral numbers
where these consumers read them), strings, arrays and objects (association
lists in key order). -/
inductive Json where
  | null : Json
  | bool (b : Bool) : Json
  | num (n : Int) : Json
  | str (s : String) : Json
  | arr (xs : List Json) : Json
  | obj (kvs : List (String × Json)) : Json

/-- Python truthiness of a JSON value (`bool(x)`). -/
def Json.truthy : Json → Bool
  | .null => false
  | .bool b => b
  | .num n => n != 0
  | .str s => !s.isEmpty
  | .arr xs => !xs.isEmpty
  | .obj kvs => !kvs.isEmpty

/-- Python `x or y` on JSON values. -/
def pyOr (a b : Json) : Json := if a.truthy then a else b

/-- `d.get(k)` on a dict: `None` (i.e. `Json.null`) when the key is absent. -/
def dictGet (d : List (String × Json)) (k : String) : Json :=
  match d.find? (fun p => p.1 == k) with
  | some p => p.2
  | none => .null

/-- `k in d` on a dict. -/
def hasKey (d : List (String × Json)) (k : String) : Bool :=
  d.any (fun p => p.1 == k)

/-- `.get(k)` on an arbitrary JSON value. In Python a non-dict receiver would
raise `AttributeError`; no consumer below reaches that on the archive shapes
they accept, and the model reads it as an absent key. -/
def Json.get (j : Json) (k : String) : Json :=
  match j with
  | .obj kvs => dictGet kvs k
  | _ => .null

/-- `.get(k, dflt)` on an arbitrary JSON value. -/
def Json.getD (j : Json) (k : String) (dflt : Json) : Json :=
  match j with
  | .obj kvs =>
    match kvs.find? (fun p => p.1 == k) with
    | some p => p.2
    | none => dflt
  | _ => dflt

def Json.isArr : Json → Bool
  | .arr _ => true
  | _ => false

/-- `session_name_from_dump` from `tbox/core.py` (lines 72-81). The result is
the extracted name value; `Json.null` models Python `None`. -/
def session_name_from_dump (data : List (String × Json)) : Json :=
  if hasKey data "sessions" && (dictGet data "sessions").isArr then
    match pyOr (dictGet data "sessions") (.arr []) with
    | .arr [] => .null
    | .arr (s :: _) =>
      let session := pyOr s (.obj [])
      pyOr (session.get "name") (session.get "session_name")
    | _ => .null
  else if hasKey data "windows" || hasKey data "name" || hasKey data "session_name" then
    pyOr (dictGet data "name") (dictGet data "session_name")
  else .null

/-- `windows_count_from_dump` from `tbox/core.py` (lines 84-97); `none`
models Python `None`. -/
def windows_count_from_dump (data : List (String × Json)) : Option Nat :=
  if hasKey data "sessions" && (dictGet data "sessions").isArr then
    match pyOr (dictGet data "sessions") (.arr []) with
    | .arr [] => none
    | .arr (s :: _) =>
      let session := pyOr s (.obj [])
      match pyOr (session.get "windows") (.arr []) with
      | .arr xs => some xs.length
      | _ => none
    | _ => none
  else
    match pyOr (dictGet data "windows") (.arr []) with
    | .arr xs => some xs.length
    | _ => none

/-- Python `str()` as interpolated by `cmd_preview`'s f-strings; the archive
fields read there are strings and integers, composite values get a schematic
rendering (their exact Python repr is irrelevant to every theorem below). -/
def Json.pyStr : Json → String
  | .null => "None"
  | .bool b => if b then "True" else "False"
  | .num n => toString n
  | .str s => s
  | .arr _ => "[...]"
  | .obj _ => "\x7b...\x7d"

/-- The per-pane print inside `cmd_preview`'s window loop
(`tbox/core.py` lines 556-563). -/
def preview_pane_lines (pane : Json) : List String :=
  let pidx := pane.getD "index" (.str "")
  let title := pyOr (pane.get "title") (.str "")
  let path_val := pyOr (pane.get "path") (.str "")
  if title.truthy then ["  - " ++ pidx.pyStr ++ ": " ++ title.pyStr]
  else if path_val.truthy then ["  - " ++ pidx.pyStr ++ ": " ++ path_val.pyStr]
  else []

/-- The per-window print inside `cmd_preview` (`tbox/core.py` lines 551-563). -/
def preview_window_lines (win : Json) : List String :=
  let idx := win.getD "index" (.str "")
  let wname := win.getD "name" (.str "")
  let panes := pyOr (win.get "panes") (.arr [])
  let paneList := match panes with | .arr xs => xs | _ => []
  ("- [" ++ idx.pyStr ++ "] " ++ wname.pyStr ++ " (" ++ toString paneList.length ++ " panes)")
    :: (paneList.map preview_pane_lines).flatten

/-- The rendering part of `cmd_preview` (`tbox/core.py` lines 539-564): the
lines printed for a parsed archive JSON, given the matched entry's name and
the requested name. -/
def cmd_preview_lines (data : Json) (entry_name : String) (name : String) : List String :=
  let sess : Json :=
    match data with
    | .obj kvs =>
      match dictGet kvs "sessions" with
      | .arr (s :: _) => pyOr s (.obj [])
      | _ => data
    | _ => .obj []
  let sname := pyOr (pyOr (pyOr (sess.get "name") (sess.get "session_name")) (.str entry_name)) (.str name)
  let wins := pyOr (sess.get "windows") (.arr [])
  let winList := match wins with | .arr xs => xs | _ => []
  ("Session: " ++ sname.pyStr)
    :: ("Windows: " ++ toString winList.length)
    :: (winList.map preview_window_lines).flatten

/-- The `Entry` dataclass from `tbox/core.py` (lines 17-28). Python's float
`archive_mtime` is modelled as a rational number: the code only compares and
sorts these timestamps, and that ordering agrees with the float ordering on
the non-NaN values the store produces. -/
structure Entry where
  name : String
  live : Bool := false
  live_windows_count : Option Int := none
  archive_path : Option String := none
  archive_mtime : ℚ := 0
  archive_windows_count : Option Int := none
deriving Repr, DecidableEq

/-- `find_entry_by_name` from `tbox/core.py` (lines 147-151): first entry
with the given name. -/
def find_entry_by_name (entries : List Entry) (name : String) : Option Entry :=
  entries.find? (fun e => e.name == name)

/-- `safe_filename` from `tbox/core.py` (lines 100-105). The sha1 digest of
the session name is not re-implemented; the 8-hex-character digest is
supplied by the caller (`digest8`). -/
def safe_filename (digest8 : String) (session_name : String) : String :=
  let clean := String.mk (session_name.data.map
    (fun ch => if ch.isAlphanum || ch = '.' || ch = '_' || ch = '-' then ch else '_'))
  let clean := if clean = "" then "session" else clean
  clean ++ "-" ++ digest8 ++ ".json"

/-- A flat file-system snapshot: association list from path to contents. -/
def FS := List (String × String)

def fsRead (fs : FS) (p : String) : Option String :=
  (List.find? (fun q => q.1 == p) fs).map (fun q => q.2)

def fsWrite (fs : FS) (p c : String) : FS :=
  (p, c) :: List.filter (fun q => q.1 != p) fs

def fsRemove (fs : FS) (p : String) : FS :=
  List.filter (fun q => q.1 != p) fs

/-- `os.replace(src, dst)`: atomically move `src` onto `dst`. -/
def fsReplace (fs : FS) (src dst : String) : FS :=
  match fsRead fs src with
  | some c => fsWrite (fsRemove fs src) dst c
  | none => fs

/-- Externally visible actions of the archive-store code paths. -/
inductive FsEv where
  | mkdirs (p : String)
  | mkstemp (dir : String) (name : String)
  | run_tool (argv : List String)
  | replace (src dst : String)
  | remove (p : String)
deriving Repr, DecidableEq

/-- The ambient environment of one `tbox` core invocation: the results of
the operating-system and tmux queries the code performs. -/
structure CoreEnv where
  in_tmux : Bool                      -- `bool(os.environ.get("TMUX"))`
  current_session : Option String     -- `current_session_name()` result
  store : String                      -- `data_dir()` result
  entries : List Entry                -- `load_saved_sessions(store)` result
  fs : FS                             -- file contents by path
  tmp_name : String                   -- basename chosen by `tempfile.mkstemp`
  digest8 : String                    -- sha1 digest used by `safe_filename`
  dump_rc : Int                       -- exit code of the `tmux-dump` tool
  dump_err : String                   -- stderr of the `tmux-dump` tool
  dump_out : String                   -- snapshot JSON the tool writes to the tmp file
  remove_ok : Bool                    -- whether `os.remove` succeeds in `cmd_drop`

/-- Destination-path selection inside `save_session_dump`
(`tbox/core.py` lines 363-369): an existing entry's truthy archive path,
otherwise `store/safe_filename(name)`. -/
def dest_path (session_name : String) (env : CoreEnv) : String :=
  match find_entry_by_name env.entries session_name with
  | some e =>
    match e.archive_path with
    | some p =>
      if p ≠ "" then p else env.store ++ "/" ++ safe_filename env.digest8 session_name
    | none => env.store ++ "/" ++ safe_filename env.digest8 session_name
  | none => env.store ++ "/" ++ safe_filename env.digest8 session_name

/-- The temporary path produced by `tempfile.mkstemp(dir=store)`. -/
def tmp_path (env : CoreEnv) : String := env.store ++ "/" ++ env.tmp_name

/-- `save_session_dump` from `tbox/core.py` (lines 362-381): create a fresh
temporary file in the store directory, run `tmux-dump` into it, and replace
the destination atomically on success. Returns the raised-or-returned value
together with the resulting file system and the action trace. -/
def save_session_dump (session_name : String) (env : CoreEnv) :
    Except String String × FS × List FsEv :=
  let dest := dest_path session_name env
  let tmp := tmp_path env
  -- `tempfile.mkstemp` creates an empty file; the dump tool then writes it.
  let fs1 := fsWrite (fsWrite env.fs tmp "") tmp env.dump_out
  let evs := [FsEv.mkstemp env.store env.tmp_name,
              FsEv.run_tool ["tmux-dump", "--session", session_name, tmp]]
  if env.dump_rc ≠ 0 then
    (Except.error (if env.dump_err ≠ "" then env.dump_err.trim else "tmux-dump failed"),
     fs1, evs)
  else
    (Except.ok dest, fsReplace fs1 tmp dest, evs ++ [FsEv.replace tmp dest])

/-- Python `not target` on an optional string (`None` and `""` are falsy). -/
def optFalsy : Option String → Bool
  | none => true
  | some s => s.isEmpty

/-- The body of `cmd_save` once the target name is resolved
(`tbox/core.py` lines 415-422). -/
def cmd_save_go (target : String) (env : CoreEnv) : Int × FS × List FsEv :=
  -- `ensure_store_dir()` creates the store directory.
  let evs0 := [FsEv.mkdirs env.store]
  match save_session_dump target env with
  | (Except.error _, fs', evs) => (1, fs', evs0 ++ evs)
  | (Except.ok _, fs', evs) => (0, fs', evs0 ++ evs)

/-- `cmd_save` from `tbox/core.py` (lines 404-422). Returns the exit code,
the resulting file system and the trace of store/tool actions (the error
paths only print to stderr). -/
def cmd_save (name : Option String) (env : CoreEnv) : Int × FS × List FsEv :=
  if optFalsy name then
    if !env.in_tmux then (2, env.fs, [])
    else
      let target := env.current_session
      if optFalsy target then (2, env.fs, [])
      else cmd_save_go (target.getD "") env
  else cmd_save_go (name.getD "") env

/-- The body of `cmd_drop` once the name is resolved
(`tbox/core.py` lines 478-490). -/
def cmd_drop_go (name : String) (env : CoreEnv) : Int × FS × List FsEv :=
  match find_entry_by_name env.entries name with
  | none => (1, env.fs, [])
  | some entry =>
    match entry.archive_path with
    | none => (1, env.fs, [])
    | some p =>
      if p = "" then (1, env.fs, [])
      else if env.remove_ok then (0, fsRemove env.fs p, [FsEv.remove p])
      else (1, env.fs, [FsEv.remove p])

/-- `cmd_drop` from `tbox/core.py` (lines 468-490). -/
def cmd_drop (name : Option String) (env : CoreEnv) : Int × FS × List FsEv :=
  if optFalsy name then
    if !env.in_tmux then (2, env.fs, [])
    else
      let n := env.current_session
      if optFalsy n then (2, env.fs, [])
      else cmd_drop_go (n.getD "") env
  else cmd_drop_go (name.getD "") env

/-- A concrete environment used to instantiate the hypotheses of the
archive-store theorems. -/
def sample_env : CoreEnv :=
  { in_tmux := false
    current_session := none
    store := "/data"
    entries := []
    fs := [("/data/work-abc.json", "old")]
    tmp_name := ".tbox-x1.json"
    digest8 := "0a1b2c3d"
    dump_rc := 0
    dump_err := ""
    dump_out := "new-dump"
    remove_ok := true }

/-- The numbered candidate names tried by `unique_session_name`:
`base(1)`, `base(2)`, …. -/
def session_candidate (base : String) (k : Nat) : String :=
  base ++ "(" ++ toString k ++ ")"

/-- The `while True` search loop of `unique_session_name`
(`tbox/core.py` lines 162-167), with explicit fuel standing in for the
unbounded loop; `none` corresponds to the Python loop never terminating
(possible only when every candidate name collides). -/
def unique_from (has : String → Bool) (base : String) : Nat → Nat → Option String
  | 0, _ => none
  | fuel + 1, idx =>
    if !has (session_candidate base idx) then some (session_candidate base idx)
    else unique_from has base fuel (idx + 1)

/-- `unique_session_name` from `tbox/core.py` (lines 159-167), parameterized
by the live-session predicate `has` (the result of `tmux_has_session`). -/
def unique_session_name (has : String → Bool) (fuel : Nat) (base : String) : Option String :=
  if !has base then some base
  else unique_from has base fuel 1

/-- Lookup in the insertion-ordered dict `by_name` of `merge_sessions`. -/
def dGet (d : List (String × Entry)) (k : String) : Option Entry :=
  (List.find? (fun p => p.1 == k) d).map (fun p => p.2)

/-- Assignment `by_name[k] = e` on an insertion-ordered dict: overwrite in
place when the key exists, append otherwise. -/
def dSet (d : List (String × Entry)) (k : String) (e : Entry) : List (String × Entry) :=
  if d.any (fun p => p.1 == k) then
    d.map (fun p => if p.1 == k then (k, e) else p)
  else d ++ [(k, e)]

/-- The archived-entries pass of `merge_sessions` (`tbox/core.py`
lines 196-202): keep the most recent archive per name, later entries
winning ties. -/
def archStep (d : List (String × Entry)) (e : Entry) : List (String × Entry) :=
  if e.name = "" then d
  else
    match dGet d e.name with
    | none => dSet d e.name e
    | some ex => if ex.archive_mtime ≤ e.archive_mtime then dSet d e.name e else d

/-- The live-entries pass of `merge_sessions` (`tbox/core.py`
lines 204-218): a live entry overlays an archived one, keeping the archive
fields. -/
def liveStep (d : List (String × Entry)) (e : Entry) : List (String × Entry) :=
  if e.name = "" then d
  else
    match dGet d e.name with
    | none => dSet d e.name e
    | some ex =>
      dSet d e.name
        { name := e.name
          live := true
          live_windows_count := e.live_windows_count
          archive_path := ex.archive_path
          archive_mtime := ex.archive_mtime
          archive_windows_count := ex.archive_windows_count }

/-- `live_rank` inside `merge_sessions`'s sort key: live entries first. -/
def live_rank (e : Entry) : Nat := if e.live then 0 else 1

/-- The sort order of `merge_sessions` (`tbox/core.py` lines 221-223):
ascending in the key `(live_rank, -archive_mtime, name)`. -/
def keyLe (a b : Entry) : Prop :=
  live_rank a < live_rank b
  ∨ (live_rank a = live_rank b
      ∧ (b.archive_mtime < a.archive_mtime
          ∨ (a.archive_mtime = b.archive_mtime ∧ a.name ≤ b.name)))

instance : DecidableRel keyLe := fun a b => by
  unfold keyLe
  infer_instance

/-- `merge_sessions` from `tbox/core.py` (lines 193-225). Python's stable
`sorted` is realised by insertion sort; the two agree here because distinct
dict values always carry distinct names, hence distinct sort keys. -/
def merge_sessions (live archived : List Entry) : List Entry :=
  let d := archived.foldl archStep []
  let d := live.foldl liveStep d
  List.insertionSort keyLe (d.map (fun p => p.2))

/-- The keys of the `by_name` dict. -/
def dKeys (d : List (String × Entry)) : List String := d.map (fun p => p.1)

/-- Well-formedness of the `by_name` dict: keys are distinct and every
stored entry is keyed by its own name. -/
def dWF (d : List (String × Entry)) : Prop :=
  (dKeys d).Nodup ∧ ∀ p ∈ d, p.2.name = p.1

/-- The effect of one `archStep` on the binding of a single key `n`. -/
def aStepKey (n : String) (o : Option Entry) (e : Entry) : Option Entry :=
  if e.name = n ∧ n ≠ "" then
    match o with
    | none => some e
    | some ex => if ex.archive_mtime ≤ e.archive_mtime then some e else some ex
  else o

/-- The merged entry a live entry `e` produces over an existing binding
`ex` (`tbox/core.py` lines 211-218). -/
def liveMerge (e ex : Entry) : Entry :=
  { name := e.name
    live := true
    live_windows_count := e.live_windows_count
    archive_path := ex.archive_path
    archive_mtime := ex.archive_mtime
    archive_windows_count := ex.archive_windows_count }

/-- The effect of one `liveStep` on the binding of a single key `n`. -/
def lStepKey (n : String) (o : Option Entry) (e : Entry) : Option Entry :=
  if e.name = n ∧ n ≠ "" then
    match o with
    | none => some e
    | some ex => some (liveMerge e ex)
  else o

instance : IsTotal Entry keyLe := by
  constructor
  intro a b
  unfold keyLe
  rcases Nat.lt_trichotomy (live_rank a) (live_rank b) with h | h | h
  · exact Or.inl (Or.inl h)
  · rcases lt_trichotomy b.archive_mtime a.archive_mtime with h2 | h2 | h2
    · exact Or.inl (Or.inr ⟨h, Or.inl h2⟩)
    · rcases le_total a.name b.name with h3 | h3
      · exact Or.inl (Or.inr ⟨h, Or.inr ⟨h2.symm, h3⟩⟩)
      · exact Or.inr (Or.inr ⟨h.symm, Or.inr ⟨h2, h3⟩⟩)
    · exact Or.inr (Or.inr ⟨h.symm, Or.inl h2⟩)
  · exact Or.inr (Or.inl h)

instance : IsTrans Entry keyLe := by
  constructor
  intro a b c hab hbc
  unfold keyLe at hab hbc ⊢
  rcases hab with h1 | ⟨h1, h1'⟩
  · rcases hbc with h2 | ⟨h2, _⟩
    · exact Or.inl (Nat.lt_trans h1 h2)
    · exact Or.inl (h2 ▸ h1)
  · rcases hbc with h2 | ⟨h2, h2'⟩
    · exact Or.inl (h1 ▸ h2)
    · refine Or.inr ⟨h1.trans h2, ?_⟩
      rcases h1' with hm1 | ⟨hm1, hn1⟩
      · rcases h2' with hm2 | ⟨hm2, _⟩
        · exact Or.inl (lt_trans hm2 hm1)
        · exact Or.inl (hm2 ▸ hm1)
      · rcases h2' with hm2 | ⟨hm2, hn2⟩
        · exact Or.inl (hm1 ▸ hm2)
        · exact Or.inr ⟨hm1.trans hm2, le_trans hn1 hn2⟩

end Tbox

namespace TmuxLoad

/-- A pane's `start_command` as stored in a snapshot: a plain string or a
list of string tokens. -/
inductive StartCmd where
  | one (s : String) : StartCmd
  | many (ts : List String) : StartCmd
deriving Repr, DecidableEq

/-- A snapshot pane (spec section 3). -/
structure Pane where
  index : Int
  title : Option String := none
  path : String := ""
  start_command : Option StartCmd := none
  active : Bool := false
deriving Repr, DecidableEq

/-- A snapshot window (spec section 3). -/
structure Window where
  index : Int
  name : String := ""
  active : Bool := false
  zoomed : Bool := false
  automatic_rename : String := ""
  panes : List Pane := []
deriving Repr, DecidableEq

/-- A snapshot session (spec section 3). -/
structure Snapshot where
  name : Option String := none
  attached : Bool := false
  windows : List Window := []
deriving Repr, DecidableEq

/-- Modelled from the spec: `normalize_start_command` of the `tmux-load`
script, whose source is not in the repository checkout (only its tests are).
Spec section 3: a token list is "normalized to a single shell line by joining
tokens with single spaces"; a plain string stands for itself; an absent
command injects nothing. -/
def normalize_start_command : Option StartCmd → String
  | none => ""
  | some (.one s) => s
  | some (.many ts) => String.intercalate " " ts

/-- First normalization step (spec section 4.1): strip a leading `file://`
scheme prefix. -/
def strip_scheme (cs : List Char) : List Char :=
  if List.isPrefixOf "file://".data cs then cs.drop 7 else cs

/-- Second normalization step (spec section 4.1): a value that does not
start with `/` but contains one is a hostname-qualified path; drop the
hostname segment up to the first `/`. -/
def strip_hostname (cs : List Char) : List Char :=
  if cs.head? ≠ some '/' && cs.contains '/' then cs.dropWhile (fun c => c ≠ '/') else cs

/-- Modelled from the spec: `normalize_path` of the `tmux-load` script, whose
source is not in the repository checkout (only its tests are). Spec
section 4.1: "strip a `file://` scheme prefix; if the remaining value is a
bare hostname-prefixed path form (hostname + absolute path with no scheme),
strip the hostname segment, yielding a plain absolute path." -/
def normalize_path (s : String) : String :=
  String.mk (strip_hostname (strip_scheme s.data))

/-- Whether a session name is purely numeric (Python `str.isdigit`:
non-empty and all digits). -/
def isDigits (s : String) : Bool :=
  !s.isEmpty && s.data.all Char.isDigit

/-- Modelled from the spec (section 4.2): the window-target string for a
session — a purely numeric name is qualified with a trailing separator so
the command parser cannot read it as a window index. -/
def session_target (name : String) : String :=
  if isDigits name then name ++ ":" else name

/-- The multiplexer commands the restore engine issues; `ensurePanes` marks
one invocation of the Pane Materializer (spec section 4.4) for one window. -/
inductive Ev where
  | newSession (sessionName : String) (winName : String) (dir : String) : Ev
  | newWindow (target : String) (winName : String) (dir : String) : Ev
  | ensurePanes (winId : String) (panes : List Pane) (run : Bool) : Ev
  | setWindowOption (winId : String) (opt : String) (val : String) : Ev
  | killOtherWindows (keepId : String) : Ev
  | killWindow (winId : String) : Ev
  | selectWindow (winId : String) : Ev
  | flush : Ev
deriving Repr, DecidableEq

def Ev.isNewSession : Ev → Bool
  | .newSession _ _ _ => true
  | _ => false

def Ev.isNewWindow : Ev → Bool
  | .newWindow _ _ _ => true
  | _ => false

/-- The pane list of a pane-materialization invocation, if any. -/
def Ev.panesOf : Ev → Option (List Pane)
  | .ensurePanes _ ps _ => some ps
  | _ => none

/-- The window-target string of a create-window command, if any. -/
def Ev.newWindowTarget : Ev → Option String
  | .newWindow t _ _ => some t
  | _ => none

/-- A window's working directory: its first pane's normalized path (spec
sections 4.1 and 4.3 step 2). -/
def first_pane_dir (w : Window) : String :=
  normalize_path (match w.panes with | [] => "" | p :: _ => p.path)

/-- The synthetic window identifier the multiplexer returns for the k-th
created window of one restore. -/
def winId (k : Nat) : String := "@" ++ toString k

/-- Per-window attribute application (spec section 4.3 step 6): a non-empty
`automatic_rename` queues one set-window-option command, an empty one
queues nothing. -/
def rename_evs (wid : String) (w : Window) : List Ev :=
  if w.automatic_rename ≠ "" then
    [Ev.setWindowOption wid "automatic-rename" w.automatic_rename]
  else []

/-- One window's materialization (spec section 4.3 step 5): create the
window with inline name and working directory, materialize its panes with
the captured identifier as target, then apply window attributes. -/
def materialize_window (sessTarget : String) (k : Nat) (run : Bool) (w : Window) : List Ev :=
  Ev.newWindow sessTarget w.name (first_pane_dir w)
    :: Ev.ensurePanes (winId k) w.panes run
    :: rename_evs (winId k) w

/-- MATERIALIZING_WINDOWS over a window list, numbering the created windows
from `k` (spec section 4.3 step 5; strictly snapshot order). -/
def materialize_windows (sessTarget : String) (k : Nat) (run : Bool) : List Window → List Ev
  | [] => []
  | w :: ws => materialize_window sessTarget k run w ++ materialize_windows sessTarget (k + 1) run ws

/-- The environment a restore observes in the live multiplexer. -/
structure MuxEnv where
  session_exists : Bool          -- `session_exists(target)`
  is_empty : Bool                -- `is_empty_session(target)`
  orig_window_id : String        -- placeholder window id of an empty target

/-- The precondition-failure message of the Target Resolver (spec
sections 4.2/7): restoring into a non-empty session without force/append. -/
def not_empty_msg (target : String) : String :=
  "session '" ++ target ++ "' is not empty; pass --force or --append"

/-- Modelled from the spec: `restore_from_dump` of the `tmux-load` script,
whose source is not in the repository checkout (only its tests are). It
implements the Target Resolver (spec section 4.2) and the Restore
Planner/Executor state machine (spec section 4.3): resolve the target first
and reject before any mutation; an empty snapshot restores as a no-op;
otherwise create, clear-then-reuse, or append, materializing windows in
snapshot order and flushing queued commands in FINALIZING. The returned
trace lists every issued command in order next to the result. -/
def restore_from_dump (data : Snapshot) (force append run_commands : Bool)
    (target : String) (env : MuxEnv) : List Ev × Except String String :=
  if !env.session_exists then
    -- CREATE strategy; an empty snapshot is a no-op.
    match data.windows with
    | [] => ([], Except.ok target)
    | w0 :: rest =>
      (Ev.newSession target w0.name (first_pane_dir w0)
        :: Ev.ensurePanes (winId 1) w0.panes run_commands
        :: rename_evs (winId 1) w0
        ++ materialize_windows (session_target target) 2 run_commands rest
        ++ [Ev.flush],
       Except.ok target)
  else if force then
    -- CLEAR then REUSE (spec sections 4.3 step 3 and 8): one
    -- kill-all-other-windows style command, queued before materialization
    -- of the remaining windows.
    match data.windows with
    | [] => ([], Except.ok target)
    | w0 :: rest =>
      (Ev.newWindow (session_target target) w0.name (first_pane_dir w0)
        :: Ev.killOtherWindows (winId 1)
        :: Ev.ensurePanes (winId 1) w0.panes run_commands
        :: rename_evs (winId 1) w0
        ++ materialize_windows (session_target target) 2 run_commands rest
        ++ [Ev.flush],
       Except.ok target)
  else if append || env.is_empty then
    -- REUSE/APPEND (spec section 4.3 step 4): every snapshot window needs an
    -- explicit create; reusing an empty session tears the placeholder down
    -- only after all new windows exist, then selects the first restored one.
    match data.windows with
    | [] => ([], Except.ok target)
    | _ :: _ =>
      (materialize_windows (session_target target) 1 run_commands data.windows
        ++ (if env.is_empty then
              [Ev.killWindow env.orig_window_id, Ev.selectWindow (winId 1)]
            else [])
        ++ [Ev.flush],
       Except.ok target)
  else
    -- REJECT (spec section 4.3 step 1): precondition failure before any
    -- command is issued.
    ([], Except.error (not_empty_msg target))

end TmuxLoad

namespace Tbox

theorem find?_filter_ne {β : Type} (l : List (String × β)) (p q : String) (h : q ≠ p) :
    List.find? (fun x => x.1 == q) (List.filter (fun x => x.1 != p) l)
      = List.find? (fun x => x.1 == q) l := by
  have hpq : (p == q) = false := by simp; exact fun hc => h hc.symm
  induction l with
  | nil => rfl
  | cons a l ih =>
    by_cases ha : a.1 = p
    · have haq : (a.1 == q) = false := by
        simp [ha]
        exact fun hc => h hc.symm
      simp [List.filter_cons, ha, List.find?_cons, haq, ih, hpq]
    · by_cases haq : a.1 = q <;>
        simp [List.filter_cons, ha, haq, List.find?_cons, ih, h, hpq]

theorem fsRead_fsWrite (fs : FS) (p c q : String) :
    fsRead (fsWrite fs p c) q = if q = p then some c else fsRead fs q := by
  by_cases h : q = p
  · simp [fsRead, fsWrite, h, List.find?_cons]
  · simp [fsRead, fsWrite, List.find?_cons, Ne.symm h, h, find?_filter_ne fs p q h]

end Tbox

open Tbox in
/-- C4: for every archive JSON object of the multi-session shape
`\x7b"sessions": [...]\x7d` with a non-empty list, each consumer in the core
(session-name extraction, window-count extraction, preview rendering) reads
only the first element of the `"sessions"` list; replacing the later
elements by any other list never changes the result. -/
theorem c4_sessions_consumers_read_only_first
    (d : List (String × Tbox.Json)) (s : Tbox.Json) (rest rest' : List Tbox.Json)
    (entry_name name : String) :
    session_name_from_dump (("sessions", Json.arr (s :: rest)) :: d)
      = session_name_from_dump (("sessions", Json.arr (s :: rest')) :: d)
    ∧ windows_count_from_dump (("sessions", Json.arr (s :: rest)) :: d)
      = windows_count_from_dump (("sessions", Json.arr (s :: rest')) :: d)
    ∧ cmd_preview_lines (Json.obj (("sessions", Json.arr (s :: rest)) :: d)) entry_name name
      = cmd_preview_lines (Json.obj (("sessions", Json.arr (s :: rest')) :: d)) entry_name name := by
  refine ⟨?_, ?_, ?_⟩ <;>
    simp [session_name_from_dump, windows_count_from_dump, cmd_preview_lines,
      hasKey, dictGet, Json.isArr, pyOr, Json.truthy, List.find?, List.any]

namespace TmuxLoad

theorem mem_rename_evs (wid : String) (w : Window) (e : Ev) (h : e ∈ rename_evs wid w) :
    e = Ev.setWindowOption wid "automatic-rename" w.automatic_rename := by
  unfold rename_evs at h
  split at h
  · simpa using h
  · simp at h

theorem filterMap_panesOf_rename (wid : String) (w : Window) :
    (rename_evs wid w).filterMap Ev.panesOf = [] := by
  unfold rename_evs; split <;> simp [Ev.panesOf]

theorem filter_isNewSession_rename (wid : String) (w : Window) :
    (rename_evs wid w).filter Ev.isNewSession = [] := by
  unfold rename_evs; split <;> simp [Ev.isNewSession]

theorem filter_isNewWindow_rename (wid : String) (w : Window) :
    (rename_evs wid w).filter Ev.isNewWindow = [] := by
  unfold rename_evs; split <;> simp [Ev.isNewWindow]

theorem mat_filter_isNewSession (st : String) (run : Bool) (ws : List Window) :
    ∀ k, (materialize_windows st k run ws).filter Ev.isNewSession = [] := by
  induction ws with
  | nil => intro k; rfl
  | cons w ws ih =>
    intro k
    simp [materialize_windows, materialize_window, List.filter_append, List.filter_cons,
      Ev.isNewSession, filter_isNewSession_rename, ih (k + 1)]

theorem mat_filter_isNewWindow_length (st : String) (run : Bool) (ws : List Window) :
    ∀ k, ((materialize_windows st k run ws).filter Ev.isNewWindow).length = ws.length := by
  induction ws with
  | nil => intro k; rfl
  | cons w ws ih =>
    intro k
    simp [materialize_windows, materialize_window, List.filter_append, List.filter_cons,
      Ev.isNewWindow, filter_isNewWindow_rename, ih (k + 1)]

theorem mat_filterMap_panesOf (st : String) (run : Bool) (ws : List Window) :
    ∀ k, (materialize_windows st k run ws).filterMap Ev.panesOf = ws.map Window.panes := by
  induction ws with
  | nil => intro k; rfl
  | cons w ws ih =>
    intro k
    simp [materialize_windows, materialize_window, List.filterMap_append, List.filterMap_cons,
      Ev.panesOf, filterMap_panesOf_rename, ih (k + 1)]

theorem mat_newWindowTarget (st : String) (run : Bool) (ws : List Window) :
    ∀ k e s, e ∈ materialize_windows st k run ws → Ev.newWindowTarget e = some s → s = st := by
  induction ws with
  | nil => intro k e s h; simp [materialize_windows] at h
  | cons w ws ih =>
    intro k e s hmem htgt
    simp only [materialize_windows, materialize_window, List.cons_append, List.mem_cons,
      List.mem_append] at hmem
    rcases hmem with rfl | rfl | hmem
    · simp [Ev.newWindowTarget] at htgt; exact htgt.symm
    · simp [Ev.newWindowTarget] at htgt
    · rcases hmem with hren | hmat
      · rw [mem_rename_evs _ _ _ hren] at htgt
        simp [Ev.newWindowTarget] at htgt
      · exact ih (k + 1) e s hmat htgt

end TmuxLoad

open TmuxLoad in
/-- C7: `normalize_start_command` maps a token list to the tokens joined by
single spaces, a plain string to itself, and an absent start command to the
empty string. -/
theorem c7_normalize_start_command (s : String) (ts : List String) :
    normalize_start_command none = ""
    ∧ normalize_start_command (some (StartCmd.one s)) = s
    ∧ normalize_start_command (some (StartCmd.many ts)) = String.intercalate " " ts :=
  ⟨rfl, rfl, rfl⟩

open TmuxLoad in
theorem dropWhile_until_slash (rest : List Char) :
    ∀ host : List Char, (∀ c ∈ host, c ≠ '/') →
      (host ++ '/' :: rest).dropWhile (fun c => c ≠ '/') = '/' :: rest := by
  intro host
  induction host with
  | nil => intro _; simp [List.dropWhile_cons]
  | cons a l ih =>
    intro h
    have ha : a ≠ '/' := h a (by simp)
    have hrec := ih (fun c hc => h c (by simp [hc]))
    simp only [List.cons_append, List.dropWhile_cons]
    rw [if_pos (by simp [ha])]
    exact hrec

open TmuxLoad in
/-- C8: `normalize_path` strips a leading `file://` scheme
(`"file:///tmp"` becomes `"/tmp"`), and a hostname-qualified form — a
non-empty hostname without slashes, not starting a `file://` scheme,
followed by an absolute path — normalizes to that bare absolute path. -/
theorem c8_normalize_path (host rest : String)
    (hne : host ≠ "")
    (hslash : ∀ c ∈ host.data, c ≠ '/')
    (hscheme : List.isPrefixOf "file://".data (host.data ++ '/' :: rest.data) = false) :
    normalize_path "file:///tmp" = "/tmp"
    ∧ normalize_path (String.mk (host.data ++ '/' :: rest.data))
        = String.mk ('/' :: rest.data) := by
  constructor
  · rfl
  · have hd : host.data ≠ [] := by
      intro h0
      apply hne
      apply String.ext
      rw [h0]
    have hh1 : host.data.head? ≠ some '/' := by
      cases hcons : host.data with
      | nil => simp
      | cons a l =>
        have ha : a ≠ '/' := hslash a (by simp [hcons])
        simp [ha]
    have hcont : (host.data ++ '/' :: rest.data).contains '/' = true := by
      simp [List.contains_eq_any_beq, List.any_append]
    have hs : strip_scheme (host.data ++ '/' :: rest.data) = host.data ++ '/' :: rest.data := by
      simp [strip_scheme, hscheme]
    have hmk : (String.mk (host.data ++ '/' :: rest.data)).data = host.data ++ '/' :: rest.data := rfl
    unfold normalize_path
    rw [hmk, hs]
    unfold strip_hostname
    rw [if_pos (by simp [hh1, hd, hcont])]
    rw [dropWhile_until_slash rest.data host.data hslash]

open TmuxLoad in
/-- C8 witness: the hostname-qualified form `ykai_m4/Users/bytedance`
normalizes to `/Users/bytedance`, via `c8_normalize_path` at that input. -/
theorem c8_normalize_path_witness :
    ("ykai_m4" : String) ≠ ""
    ∧ (∀ c ∈ ("ykai_m4" : String).data, c ≠ '/')
    ∧ List.isPrefixOf "file://".data (("ykai_m4" : String).data ++ '/' :: ("Users/bytedance" : String).data) = false
    ∧ (normalize_path "file:///tmp" = "/tmp"
        ∧ normalize_path (String.mk (("ykai_m4" : String).data ++ '/' :: ("Users/bytedance" : String).data))
            = String.mk ('/' :: ("Users/bytedance" : String).data)) :=
  ⟨by decide, by decide, by decide,
    c8_normalize_path "ykai_m4" "Users/bytedance" (by decide) (by decide) (by decide)⟩

open TmuxLoad in
/-- C1: for every snapshot, restoring into an existing non-empty target
session with `force = false` and `append = false` aborts with an error whose
message contains the phrase "not empty", and no multiplexer command (queued
or immediate) is issued before the error: the trace is empty. -/
theorem c1_nonempty_target_rejected (data : Snapshot) (run : Bool)
    (target : String) (env : MuxEnv)
    (hex : env.session_exists = true) (hne : env.is_empty = false) :
    (restore_from_dump data false false run target env).1 = []
    ∧ ∃ msg, (restore_from_dump data false false run target env).2 = Except.error msg
        ∧ List.IsInfix "not empty".data msg.data := by
  have hr : restore_from_dump data false false run target env
      = ([], Except.error (not_empty_msg target)) := by
    simp [restore_from_dump, hex, hne]
  rw [hr]
  refine ⟨rfl, not_empty_msg target, rfl, ?_⟩
  refine ⟨("session '" ++ target ++ "' is ").data, "; pass --force or --append".data, ?_⟩
  simp only [not_empty_msg, String.data_append, List.append_assoc]
  congr 2

open TmuxLoad in
/-- C1 witness: a one-window snapshot against an existing non-empty session
named "sess", via `c1_nonempty_target_rejected`. -/
theorem c1_witness :
    (MuxEnv.mk true false "@o").session_exists = true
    ∧ (MuxEnv.mk true false "@o").is_empty = false
    ∧ ((restore_from_dump
          (Snapshot.mk (some "sess") false
            [Window.mk 0 "w1" false false "" [Pane.mk 0 none "/" none false]])
          false false false "sess" (MuxEnv.mk true false "@o")).1 = []
        ∧ ∃ msg, (restore_from_dump
              (Snapshot.mk (some "sess") false
                [Window.mk 0 "w1" false false "" [Pane.mk 0 none "/" none false]])
              false false false "sess" (MuxEnv.mk true false "@o")).2 = Except.error msg
            ∧ List.IsInfix "not empty".data msg.data) :=
  ⟨rfl, rfl,
    c1_nonempty_target_rejected
      (Snapshot.mk (some "sess") false
        [Window.mk 0 "w1" false false "" [Pane.mk 0 none "/" none false]])
      false "sess" (MuxEnv.mk true false "@o") rfl rfl⟩

open TmuxLoad in
/-- C2: restoring a snapshot with N ≥ 1 windows into a target session that
does not exist issues exactly one new-session command (carrying the first
window's name and working directory), exactly N−1 new-window commands, and
invokes pane materialization exactly N times, once per window in snapshot
order. -/
theorem c2_create_path_counts (data : Snapshot) (force append run : Bool)
    (target : String) (env : MuxEnv) (w0 : Window) (rest : List Window)
    (hex : env.session_exists = false) (hw : data.windows = w0 :: rest) :
    (restore_from_dump data force append run target env).1.filter Ev.isNewSession
        = [Ev.newSession target w0.name (first_pane_dir w0)]
    ∧ ((restore_from_dump data force append run target env).1.filter Ev.isNewWindow).length
        = data.windows.length - 1
    ∧ (restore_from_dump data force append run target env).1.filterMap Ev.panesOf
        = data.windows.map Window.panes := by
  have hr : (restore_from_dump data force append run target env).1
      = (Ev.newSession target w0.name (first_pane_dir w0)
          :: Ev.ensurePanes (winId 1) w0.panes run
          :: rename_evs (winId 1) w0)
        ++ materialize_windows (session_target target) 2 run rest
        ++ [Ev.flush] := by
    simp [restore_from_dump, hex, hw]
  rw [hr, hw]
  refine ⟨?_, ?_, ?_⟩
  · simp [List.filter_append, List.filter_cons, Ev.isNewSession,
      filter_isNewSession_rename, mat_filter_isNewSession]
  · simp [List.filter_append, List.filter_cons, Ev.isNewWindow,
      filter_isNewWindow_rename, mat_filter_isNewWindow_length]
  · simp [List.filterMap_append, List.filterMap_cons, Ev.panesOf,
      filterMap_panesOf_rename, mat_filterMap_panesOf]

open TmuxLoad in
/-- C2 witness: a three-window snapshot restored into a fresh session, via
`c2_create_path_counts`. -/
theorem c2_witness :
    (MuxEnv.mk false false "@o").session_exists = false
    ∧ (Snapshot.mk (some "sess") false
        [Window.mk 1 "w1" false false "" [Pane.mk 0 none "/" none false],
         Window.mk 2 "w2" false false "" [Pane.mk 0 none "/" none false],
         Window.mk 3 "w3" false false "" [Pane.mk 0 none "/" none false]]).windows
      = Window.mk 1 "w1" false false "" [Pane.mk 0 none "/" none false]
          :: [Window.mk 2 "w2" false false "" [Pane.mk 0 none "/" none false],
              Window.mk 3 "w3" false false "" [Pane.mk 0 none "/" none false]]
    ∧ ((restore_from_dump
          (Snapshot.mk (some "sess") false
            [Window.mk 1 "w1" false false "" [Pane.mk 0 none "/" none false],
             Window.mk 2 "w2" false false "" [Pane.mk 0 none "/" none false],
             Window.mk 3 "w3" false false "" [Pane.mk 0 none "/" none false]])
          false false false "sess" (MuxEnv.mk false false "@o")).1.filter Ev.isNewSession
        = [Ev.newSession "sess" "w1" (first_pane_dir (Window.mk 1 "w1" false false "" [Pane.mk 0 none "/" none false]))]
      ∧ ((restore_from_dump
            (Snapshot.mk (some "sess") false
              [Window.mk 1 "w1" false false "" [Pane.mk 0 none "/" none false],
               Window.mk 2 "w2" false false "" [Pane.mk 0 none "/" none false],
               Window.mk 3 "w3" false false "" [Pane.mk 0 none "/" none false]])
            false false false "sess" (MuxEnv.mk false false "@o")).1.filter Ev.isNewWindow).length
          = (Snapshot.mk (some "sess") false
              [Window.mk 1 "w1" false false "" [Pane.mk 0 none "/" none false],
               Window.mk 2 "w2" false false "" [Pane.mk 0 none "/" none false],
               Window.mk 3 "w3" false false "" [Pane.mk 0 none "/" none false]]).windows.length - 1
      ∧ (restore_from_dump
            (Snapshot.mk (some "sess") false
              [Window.mk 1 "w1" false false "" [Pane.mk 0 none "/" none false],
               Window.mk 2 "w2" false false "" [Pane.mk 0 none "/" none false],
               Window.mk 3 "w3" false false "" [Pane.mk 0 none "/" none false]])
            false false false "sess" (MuxEnv.mk false false "@o")).1.filterMap Ev.panesOf
          = (Snapshot.mk (some "sess") false
              [Window.mk 1 "w1" false false "" [Pane.mk 0 none "/" none false],
               Window.mk 2 "w2" false false "" [Pane.mk 0 none "/" none false],
               Window.mk 3 "w3" false false "" [Pane.mk 0 none "/" none false]]).windows.map Window.panes) :=
  ⟨rfl, rfl,
    c2_create_path_counts
      (Snapshot.mk (some "sess") false
        [Window.mk 1 "w1" false false "" [Pane.mk 0 none "/" none false],
         Window.mk 2 "w2" false false "" [Pane.mk 0 none "/" none false],
         Window.mk 3 "w3" false false "" [Pane.mk 0 none "/" none false]])
      false false false "sess" (MuxEnv.mk false false "@o")
      (Window.mk 1 "w1" false false "" [Pane.mk 0 none "/" none false])
      [Window.mk 2 "w2" false false "" [Pane.mk 0 none "/" none false],
       Window.mk 3 "w3" false false "" [Pane.mk 0 none "/" none false]]
      rfl rfl⟩

open TmuxLoad in
theorem restore_newWindowTarget (data : Snapshot) (force append run : Bool)
    (target : String) (env : MuxEnv) :
    ∀ e ∈ (restore_from_dump data force append run target env).1,
      ∀ s, Ev.newWindowTarget e = some s → s = session_target target := by
  intro e he s hs
  unfold restore_from_dump at he
  split at he
  · -- CREATE
    split at he
    · simp at he
    · simp only [List.cons_append, List.mem_cons, List.mem_append,
        List.mem_singleton] at he
      rcases he with rfl | rfl | (hren | hmat) | (rfl | hnil)
      · simp [Ev.newWindowTarget] at hs
      · simp [Ev.newWindowTarget] at hs
      · rw [mem_rename_evs _ _ _ hren] at hs
        simp [Ev.newWindowTarget] at hs
      · exact mat_newWindowTarget (session_target target) run _ 2 e s hmat hs
      · simp [Ev.newWindowTarget] at hs
      · simp at hnil
  · split at he
    · -- CLEAR then REUSE
      split at he
      · simp at he
      · simp only [List.cons_append, List.mem_cons, List.mem_append,
          List.mem_singleton] at he
        rcases he with rfl | rfl | rfl | (hren | hmat) | (rfl | hnil)
        · simp only [Ev.newWindowTarget, Option.some.injEq] at hs
          exact hs.symm
        · simp [Ev.newWindowTarget] at hs
        · simp [Ev.newWindowTarget] at hs
        · rw [mem_rename_evs _ _ _ hren] at hs
          simp [Ev.newWindowTarget] at hs
        · exact mat_newWindowTarget (session_target target) run _ 2 e s hmat hs
        · simp [Ev.newWindowTarget] at hs
        · simp at hnil
    · split at he
      · -- REUSE / APPEND
        split at he
        · simp at he
        · simp only [List.mem_append, List.mem_singleton] at he
          rcases he with (hmat | hcond) | rfl
          · exact mat_newWindowTarget (session_target target) run _ 1 e s hmat hs
          · split at hcond
            · simp at hcond
              rcases hcond with rfl | rfl <;> simp [Ev.newWindowTarget] at hs
            · simp at hcond
          · simp [Ev.newWindowTarget] at hs
      · -- REJECT
        simp at he

open TmuxLoad in
/-- C3: when the target session name is purely numeric, every window-target
string of a create-window command issued by the restore engine is the
qualified form `name ++ ":"`, never the bare name. -/
theorem c3_numeric_target_qualified (data : Snapshot) (force append run : Bool)
    (target : String) (env : MuxEnv) (hdig : isDigits target = true) :
    ∀ e ∈ (restore_from_dump data force append run target env).1,
      ∀ s, Ev.newWindowTarget e = some s → s = target ++ ":" ∧ s ≠ target := by
  have hq : session_target target = target ++ ":" := by simp [session_target, hdig]
  have hne : target ++ ":" ≠ target := by
    intro h
    have h2 := congrArg String.length h
    simp [String.length_append] at h2
    exact absurd h2 (by decide)
  intro e he s hs
  have := restore_newWindowTarget data force append run target env e he s hs
  rw [hq] at this
  exact ⟨this, this ▸ hne⟩

open TmuxLoad in
/-- C3 witness: restoring a two-window snapshot into the purely numeric
session name "123" — the second window's create-window command carries the
qualified target "123:" — via `c3_numeric_target_qualified`. -/
theorem c3_witness :
    isDigits "123" = true
    ∧ Ev.newWindow "123:" "w2" "/"
        ∈ (restore_from_dump
            (Snapshot.mk (some "123") false
              [Window.mk 0 "w1" false false "" [Pane.mk 0 none "/" none false],
               Window.mk 1 "w2" false false "" [Pane.mk 0 none "/" none false]])
            false false false "123" (MuxEnv.mk false false "@o")).1
    ∧ ("123:" = "123" ++ ":" ∧ "123:" ≠ "123") :=
  ⟨by decide, by decide,
    c3_numeric_target_qualified
      (Snapshot.mk (some "123") false
        [Window.mk 0 "w1" false false "" [Pane.mk 0 none "/" none false],
         Window.mk 1 "w2" false false "" [Pane.mk 0 none "/" none false]])
      false false false "123" (MuxEnv.mk false false "@o") (by decide)
      (Ev.newWindow "123:" "w2" "/") (by decide) "123:" rfl⟩

open Tbox in
/-- C5: invoking the save or drop operation with no (or an empty) session
name while not inside tmux exits with code 2, leaves the file system
untouched and performs no store/tool/multiplexer action at all. -/
theorem c5_missing_name_outside_tmux (name : Option String) (env : CoreEnv)
    (hname : optFalsy name = true) (htmux : env.in_tmux = false) :
    cmd_save name env = (2, env.fs, [])
    ∧ cmd_drop name env = (2, env.fs, []) := by
  constructor <;> simp [cmd_save, cmd_drop, hname, htmux]

open Tbox in
/-- C5 witness: saving and dropping without a name outside tmux, via
`c5_missing_name_outside_tmux` on `sample_env`. -/
theorem c5_witness :
    optFalsy none = true
    ∧ Tbox.sample_env.in_tmux = false
    ∧ (Tbox.cmd_save none Tbox.sample_env = (2, Tbox.sample_env.fs, [])
        ∧ Tbox.cmd_drop none Tbox.sample_env = (2, Tbox.sample_env.fs, [])) :=
  ⟨rfl, rfl, c5_missing_name_outside_tmux none Tbox.sample_env rfl rfl⟩

open Tbox in
/-- C6: `save_session_dump` writes the archive atomically — the dump is
produced into a temporary file inside the store directory, and only a final
atomic replace (issued after the dump tool succeeded) moves it onto the
destination; when the dump tool fails the call raises, no replace is ever
performed and the destination's prior contents are unchanged. -/
theorem c6_save_session_dump_atomic (session_name : String) (env : CoreEnv)
    (hne : tmp_path env ≠ dest_path session_name env) :
    (env.dump_rc ≠ 0 →
      (∃ msg, (save_session_dump session_name env).1 = Except.error msg)
      ∧ fsRead (save_session_dump session_name env).2.1 (dest_path session_name env)
          = fsRead env.fs (dest_path session_name env)
      ∧ (save_session_dump session_name env).2.2
          = [FsEv.mkstemp env.store env.tmp_name,
             FsEv.run_tool ["tmux-dump", "--session", session_name, tmp_path env]])
    ∧ (env.dump_rc = 0 →
      (save_session_dump session_name env).1 = Except.ok (dest_path session_name env)
      ∧ fsRead (save_session_dump session_name env).2.1 (dest_path session_name env)
          = some env.dump_out
      ∧ (save_session_dump session_name env).2.2
          = [FsEv.mkstemp env.store env.tmp_name,
             FsEv.run_tool ["tmux-dump", "--session", session_name, tmp_path env],
             FsEv.replace (tmp_path env) (dest_path session_name env)]) := by
  have hd : dest_path session_name env ≠ tmp_path env := Ne.symm hne
  constructor
  · intro hrc
    rw [show save_session_dump session_name env
        = (Except.error (if env.dump_err ≠ "" then env.dump_err.trim else "tmux-dump failed"),
           fsWrite (fsWrite env.fs (tmp_path env) "") (tmp_path env) env.dump_out,
           [FsEv.mkstemp env.store env.tmp_name,
            FsEv.run_tool ["tmux-dump", "--session", session_name, tmp_path env]])
      from by simp [save_session_dump, hrc]]
    refine ⟨⟨_, rfl⟩, ?_, rfl⟩
    rw [fsRead_fsWrite, if_neg hd, fsRead_fsWrite, if_neg hd]
  · intro hrc
    have hread : fsRead (fsWrite (fsWrite env.fs (tmp_path env) "")
        (tmp_path env) env.dump_out) (tmp_path env) = some env.dump_out := by
      rw [fsRead_fsWrite, if_pos rfl]
    rw [show save_session_dump session_name env
        = (Except.ok (dest_path session_name env),
           fsWrite (fsRemove (fsWrite (fsWrite env.fs (tmp_path env) "")
               (tmp_path env) env.dump_out) (tmp_path env))
             (dest_path session_name env) env.dump_out,
           [FsEv.mkstemp env.store env.tmp_name,
            FsEv.run_tool ["tmux-dump", "--session", session_name, tmp_path env],
            FsEv.replace (tmp_path env) (dest_path session_name env)])
      from by simp [save_session_dump, hrc, fsReplace, hread]]
    refine ⟨rfl, ?_, rfl⟩
    rw [fsRead_fsWrite, if_pos rfl]

open Tbox in
/-- C6 witness: saving session "work" in `sample_env` (fresh destination
path, successful dump), via `c6_save_session_dump_atomic`. -/
theorem c6_witness :
    tmp_path Tbox.sample_env ≠ dest_path "work" Tbox.sample_env
    ∧ (Tbox.sample_env.dump_rc = 0
        ∧ (save_session_dump "work" Tbox.sample_env).1
            = Except.ok (dest_path "work" Tbox.sample_env)
        ∧ fsRead (save_session_dump "work" Tbox.sample_env).2.1
              (dest_path "work" Tbox.sample_env)
            = some Tbox.sample_env.dump_out
        ∧ (save_session_dump "work" Tbox.sample_env).2.2
            = [FsEv.mkstemp Tbox.sample_env.store Tbox.sample_env.tmp_name,
               FsEv.run_tool ["tmux-dump", "--session", "work", tmp_path Tbox.sample_env],
               FsEv.replace (tmp_path Tbox.sample_env) (dest_path "work" Tbox.sample_env)]) :=
  ⟨by decide, rfl,
    (c6_save_session_dump_atomic "work" Tbox.sample_env (by decide)).2 rfl⟩

open Tbox in
theorem unique_from_spec (has : String → Bool) (base : String) :
    ∀ (fuel idx j : Nat), idx ≤ j → j < idx + fuel →
      has (session_candidate base j) = false →
      ∃ k, idx ≤ k
        ∧ unique_from has base fuel idx = some (session_candidate base k)
        ∧ has (session_candidate base k) = false
        ∧ ∀ i, idx ≤ i → i < k → has (session_candidate base i) = true := by
  intro fuel
  induction fuel with
  | zero => intro idx j h1 h2 _; omega
  | succ fuel ih =>
    intro idx j h1 h2 hj
    by_cases hc : has (session_candidate base idx) = false
    · refine ⟨idx, Nat.le_refl idx, ?_, hc, ?_⟩
      · simp [unique_from, hc]
      · intro i hi1 hi2; omega
    · have hc' : has (session_candidate base idx) = true := by
        cases h : has (session_candidate base idx) with
        | false => exact absurd h hc
        | true => rfl
      have hij : idx ≠ j := by
        intro h
        rw [h, hj] at hc'
        exact Bool.noConfusion hc'
      obtain ⟨k, hk1, hk2, hk3, hk4⟩ :=
        ih (idx + 1) j (by omega) (by omega) hj
      refine ⟨k, by omega, ?_, hk3, ?_⟩
      · simpa [unique_from, hc'] using hk2
      · intro i hi1 hi2
        by_cases hii : i = idx
        · rw [hii]; exact hc'
        · exact hk4 i (by omega) hi2

open Tbox in
/-- C9: `unique_session_name` returns the base name itself when no live
session has that name; otherwise it returns `base(k)` for the smallest
k ≥ 1 whose candidate name is free — in either case a name colliding with
no live session. The Python `while True` loop carries fuel here; the
hypothesis that some candidate with index ≤ fuel is free reflects the
claim's assumption of a finite, fixed set of live sessions. -/
theorem c9_unique_session_name (has : String → Bool) (base : String) (fuel j : Nat)
    (hj1 : 1 ≤ j) (hj2 : j ≤ fuel) (hfree : has (session_candidate base j) = false) :
    ∃ r, unique_session_name has fuel base = some r
      ∧ has r = false
      ∧ (has base = false → r = base)
      ∧ (has base = true →
          ∃ k, 1 ≤ k ∧ r = session_candidate base k
            ∧ ∀ i, 1 ≤ i → i < k → has (session_candidate base i) = true) := by
  by_cases hb : has base = false
  · refine ⟨base, ?_, hb, fun _ => rfl, fun hb' => absurd hb' (by simp [hb])⟩
    simp [unique_session_name, hb]
  · have hb' : has base = true := by
      cases h : has base with
      | false => exact absurd h hb
      | true => rfl
    obtain ⟨k, hk1, hk2, hk3, hk4⟩ :=
      unique_from_spec has base fuel 1 j hj1 (by omega) hfree
    refine ⟨session_candidate base k, ?_, hk3, ?_, fun _ => ⟨k, hk1, rfl, hk4⟩⟩
    · simpa [unique_session_name, hb'] using hk2
    · intro hf
      rw [hf] at hb'
      exact Bool.noConfusion hb'

open Tbox in
/-- C9 witness: with "work" the only live session, `unique_session_name`
yields "work(1)", via `c9_unique_session_name`. -/
theorem c9_witness :
    1 ≤ 1 ∧ 1 ≤ 1
    ∧ (fun s => s == "work") (session_candidate "work" 1) = false
    ∧ (∃ r, unique_session_name (fun s => s == "work") 1 "work" = some r
        ∧ (fun s => s == "work") r = false
        ∧ ((fun s => s == "work") "work" = false → r = "work")
        ∧ ((fun s => s == "work") "work" = true →
            ∃ k, 1 ≤ k ∧ r = session_candidate "work" k
              ∧ ∀ i, 1 ≤ i → i < k →
                  (fun s => s == "work") (session_candidate "work" i) = true)) :=
  ⟨Nat.le_refl 1, Nat.le_refl 1, by decide,
    c9_unique_session_name (fun s => s == "work") "work" 1 1
      (Nat.le_refl 1) (Nat.le_refl 1) (by decide)⟩

namespace Tbox

theorem find?_set_map_self (k : String) (e : Entry) :
    ∀ d : List (String × Entry), d.any (fun p => p.1 == k) = true →
      List.find? (fun p => p.1 == k) (d.map (fun p => if p.1 == k then (k, e) else p))
        = some (k, e) := by
  intro d
  induction d with
  | nil => intro h; simp at h
  | cons a d ih =>
    intro h
    by_cases ha : a.1 = k
    · have hhead : (if (a.1 == k) = true then (k, e) else a) = (k, e) := by simp [ha]
      rw [List.map_cons, hhead, List.find?_cons_of_pos _ (by simp)]
    · have hhead : (if (a.1 == k) = true then (k, e) else a) = a := by simp [ha]
      have h' : d.any (fun p => p.1 == k) = true := by
        simp only [List.any_cons, Bool.or_eq_true, beq_iff_eq] at h
        rcases h with h | h
        · exact absurd h ha
        · exact h
      rw [List.map_cons, hhead, List.find?_cons_of_neg _ (by simp [ha])]
      exact ih h'

theorem find?_set_map_other (k : String) (e : Entry) (k' : String) (hkk : k' ≠ k) :
    ∀ d : List (String × Entry),
      List.find? (fun p => p.1 == k') (d.map (fun p => if p.1 == k then (k, e) else p))
        = List.find? (fun p => p.1 == k') d := by
  intro d
  induction d with
  | nil => rfl
  | cons a d ih =>
    by_cases ha : a.1 = k
    · have hhead : (if (a.1 == k) = true then (k, e) else a) = (k, e) := by simp [ha]
      rw [List.map_cons, hhead,
        List.find?_cons_of_neg _ (by simp only [beq_iff_eq]; exact fun hc => hkk hc.symm),
        List.find?_cons_of_neg _ (by
          simp only [beq_iff_eq, ha]
          exact fun hc => hkk hc.symm)]
      exact ih
    · by_cases ha' : a.1 = k'
      · have hhead : (if (a.1 == k) = true then (k, e) else a) = a := by simp [ha]
        rw [List.map_cons, hhead,
          List.find?_cons_of_pos _ (by simp [ha']), List.find?_cons_of_pos _ (by simp [ha'])]
      · have hhead : (if (a.1 == k) = true then (k, e) else a) = a := by simp [ha]
        rw [List.map_cons, hhead,
          List.find?_cons_of_neg _ (by simp [ha']), List.find?_cons_of_neg _ (by simp [ha'])]
        exact ih

theorem find?_append_pair (k : String) (e : Entry) (k' : String) :
    ∀ d : List (String × Entry),
      List.find? (fun p => p.1 == k') (d ++ [(k, e)])
        = (match List.find? (fun p => p.1 == k') d with
           | some p => some p
           | none => if k' = k then some (k, e) else none) := by
  intro d
  induction d with
  | nil =>
    simp only [List.nil_append, List.find?_nil]
    by_cases h : k' = k
    · subst h
      rw [List.find?_cons_of_pos _ (by simp), if_pos rfl]
    · rw [List.find?_cons_of_neg _ (by
        simp only [beq_iff_eq]
        exact fun hc => h hc.symm)]
      rw [List.find?_nil, if_neg h]
  | cons a d ih =>
    by_cases ha : a.1 = k'
    · rw [List.cons_append, List.find?_cons_of_pos _ (by simp [ha]),
        List.find?_cons_of_pos _ (by simp [ha])]
    · rw [List.cons_append, List.find?_cons_of_neg _ (by simp [ha]),
        List.find?_cons_of_neg _ (by simp [ha]), ih]

theorem dGet_dSet (d : List (String × Entry)) (k : String) (e : Entry) (k' : String) :
    dGet (dSet d k e) k' = if k' = k then some e else dGet d k' := by
  unfold dGet dSet
  by_cases hany : d.any (fun p => p.1 == k) = true
  · rw [if_pos hany]
    by_cases hkk : k' = k
    · rw [if_pos hkk, hkk, find?_set_map_self k e d hany]
      simp
    · rw [find?_set_map_other k e k' hkk d, if_neg hkk]
  · rw [if_neg hany, find?_append_pair k e k' d]
    have hnone : List.find? (fun p => p.1 == k) d = none := by
      rw [List.find?_eq_none]
      intro x hx hpx
      exact hany (List.any_eq_true.mpr ⟨x, hx, hpx⟩)
    by_cases hkk : k' = k
    · subst hkk
      rw [hnone, if_pos rfl, if_pos rfl]
      simp
    · rw [if_neg hkk]
      cases hfd : List.find? (fun p => p.1 == k') d <;> simp [hfd, hkk]

end Tbox

namespace Tbox

theorem dKeys_dSet_of_any (d : List (String × Entry)) (k : String) (e : Entry)
    (hany : d.any (fun p => p.1 == k) = true) :
    dKeys (dSet d k e) = dKeys d := by
  unfold dSet dKeys
  rw [if_pos hany, List.map_map]
  apply List.map_congr_left
  intro p hp
  by_cases hp1 : p.1 = k <;> simp [Function.comp, hp1]

theorem dKeys_dSet_of_not_any (d : List (String × Entry)) (k : String) (e : Entry)
    (hany : ¬ d.any (fun p => p.1 == k) = true) :
    dKeys (dSet d k e) = dKeys d ++ [k] := by
  unfold dSet dKeys
  rw [if_neg hany, List.map_append]
  rfl

theorem dWF_dSet (d : List (String × Entry)) (k : String) (e : Entry)
    (hwf : dWF d) (he : e.name = k) : dWF (dSet d k e) := by
  obtain ⟨hnd, hmem⟩ := hwf
  by_cases hany : d.any (fun p => p.1 == k) = true
  · refine ⟨by rw [dKeys_dSet_of_any d k e hany]; exact hnd, ?_⟩
    intro p hp
    unfold dSet at hp
    rw [if_pos hany] at hp
    obtain ⟨q, hq, hfq⟩ := List.mem_map.mp hp
    by_cases hq1 : q.1 = k
    · rw [← hfq]
      simp [hq1, he]
    · rw [← hfq]
      simp only [hq1, if_neg, beq_iff_eq, if_false]
      exact hmem q hq
  · refine ⟨?_, ?_⟩
    · rw [dKeys_dSet_of_not_any d k e hany, List.nodup_append]
      refine ⟨hnd, List.nodup_singleton k, ?_⟩
      intro x hx hx2
      simp only [List.mem_singleton] at hx2
      obtain ⟨p, hp, hp1⟩ := List.mem_map.mp hx
      exact hany (List.any_eq_true.mpr ⟨p, hp, by simp [hp1, hx2]⟩)
    · intro p hp
      unfold dSet at hp
      rw [if_neg hany] at hp
      rcases List.mem_append.mp hp with h | h
      · exact hmem p h
      · simp only [List.mem_singleton] at h
        subst h
        simpa using he

theorem dWF_archStep (d : List (String × Entry)) (e : Entry) (hwf : dWF d) :
    dWF (archStep d e) := by
  unfold archStep
  split
  · exact hwf
  · split
    · exact dWF_dSet d e.name e hwf rfl
    · split
      · exact dWF_dSet d e.name e hwf rfl
      · exact hwf

theorem dWF_liveStep (d : List (String × Entry)) (e : Entry) (hwf : dWF d) :
    dWF (liveStep d e) := by
  unfold liveStep
  split
  · exact hwf
  · split
    · exact dWF_dSet d e.name e hwf rfl
    · exact dWF_dSet d e.name _ hwf rfl

theorem dWF_foldl_arch (l : List Entry) :
    ∀ d, dWF d → dWF (l.foldl archStep d) := by
  induction l with
  | nil => intro d h; exact h
  | cons e l ih =>
    intro d h
    rw [List.foldl_cons]
    exact ih _ (dWF_archStep d e h)

theorem dWF_foldl_live (l : List Entry) :
    ∀ d, dWF d → dWF (l.foldl liveStep d) := by
  induction l with
  | nil => intro d h; exact h
  | cons e l ih =>
    intro d h
    rw [List.foldl_cons]
    exact ih _ (dWF_liveStep d e h)

end Tbox

namespace Tbox

theorem dGet_archStep (d : List (String × Entry)) (e : Entry) (n : String) :
    dGet (archStep d e) n = aStepKey n (dGet d n) e := by
  unfold archStep aStepKey
  by_cases h0 : e.name = ""
  · rw [if_pos h0, if_neg ?hc]
    case hc =>
      rintro ⟨h1, h2⟩
      exact h2 (h1 ▸ h0)
  · rw [if_neg h0]
    by_cases hen : e.name = n
    · rw [if_pos ⟨hen, hen ▸ h0⟩, ← hen]
      cases hget : dGet d e.name with
      | none =>
        simp only [hget]
        rw [dGet_dSet, if_pos rfl]
      | some ex =>
        simp only [hget]
        by_cases hle : ex.archive_mtime ≤ e.archive_mtime
        · rw [if_pos hle, if_pos hle, dGet_dSet, if_pos rfl]
        · rw [if_neg hle, if_neg hle, hget]
    · rw [if_neg (fun hc => hen hc.1)]
      cases hget : dGet d e.name with
      | none =>
        simp only [hget]
        rw [dGet_dSet, if_neg (fun hc => hen hc.symm)]
      | some ex =>
        simp only [hget]
        by_cases hle : ex.archive_mtime ≤ e.archive_mtime
        · rw [if_pos hle, dGet_dSet, if_neg (fun hc => hen hc.symm)]
        · rw [if_neg hle]

theorem dGet_liveStep (d : List (String × Entry)) (e : Entry) (n : String) :
    dGet (liveStep d e) n = lStepKey n (dGet d n) e := by
  unfold liveStep lStepKey liveMerge
  by_cases h0 : e.name = ""
  · rw [if_pos h0, if_neg ?hc]
    case hc =>
      rintro ⟨h1, h2⟩
      exact h2 (h1 ▸ h0)
  · rw [if_neg h0]
    by_cases hen : e.name = n
    · rw [if_pos ⟨hen, hen ▸ h0⟩, ← hen]
      cases hget : dGet d e.name with
      | none =>
        simp only [hget]
        rw [dGet_dSet, if_pos rfl]
      | some ex =>
        simp only [hget]
        rw [dGet_dSet, if_pos rfl]
    · rw [if_neg (fun hc => hen hc.1)]
      cases hget : dGet d e.name with
      | none =>
        simp only [hget]
        rw [dGet_dSet, if_neg (fun hc => hen hc.symm)]
      | some ex =>
        simp only [hget]
        rw [dGet_dSet, if_neg (fun hc => hen hc.symm)]

theorem dGet_foldl_archStep (l : List Entry) :
    ∀ (d : List (String × Entry)) (n : String),
      dGet (l.foldl archStep d) n = l.foldl (aStepKey n) (dGet d n) := by
  induction l with
  | nil => intro d n; rfl
  | cons e l ih =>
    intro d n
    rw [List.foldl_cons, List.foldl_cons, ih, dGet_archStep]

theorem dGet_foldl_liveStep (l : List Entry) :
    ∀ (d : List (String × Entry)) (n : String),
      dGet (l.foldl liveStep d) n = l.foldl (lStepKey n) (dGet d n) := by
  induction l with
  | nil => intro d n; rfl
  | cons e l ih =>
    intro d n
    rw [List.foldl_cons, List.foldl_cons, ih, dGet_liveStep]

end Tbox

namespace Tbox

theorem aStepKey_eq_none (n : String) (o : Option Entry) (e : Entry) :
    aStepKey n o e = none ↔ (o = none ∧ ¬(e.name = n ∧ n ≠ "")) := by
  unfold aStepKey
  split
  · rename_i h
    cases o with
    | none => simp [h]
    | some ex =>
      show (if ex.archive_mtime ≤ e.archive_mtime then some e else some ex) = none ↔ _
      split <;> simp [h]
  · rename_i h
    simp [h]

theorem aFold_none_iff (n : String) :
    ∀ (l : List Entry) (o : Option Entry),
      l.foldl (aStepKey n) o = none ↔ (o = none ∧ ∀ e ∈ l, ¬(e.name = n ∧ n ≠ "")) := by
  intro l
  induction l with
  | nil => intro o; simp
  | cons e l ih =>
    intro o
    rw [List.foldl_cons, ih, aStepKey_eq_none]
    constructor
    · rintro ⟨⟨h1, h2⟩, h3⟩
      refine ⟨h1, ?_⟩
      intro x hx
      rcases List.mem_cons.mp hx with rfl | hx'
      · exact h2
      · exact h3 x hx'
    · rintro ⟨h1, h2⟩
      exact ⟨⟨h1, h2 e (List.mem_cons_self e l)⟩,
        fun x hx => h2 x (List.mem_cons_of_mem e hx)⟩

theorem aFold_some_spec (n : String) :
    ∀ (l : List Entry) (o : Option Entry) (a : Entry),
      l.foldl (aStepKey n) o = some a →
      (o = some a ∨ (a ∈ l ∧ a.name = n))
      ∧ (∀ e ∈ l, e.name = n → n ≠ "" → e.archive_mtime ≤ a.archive_mtime)
      ∧ (∀ b, o = some b → b.archive_mtime ≤ a.archive_mtime) := by
  intro l
  induction l with
  | nil =>
    intro o a ha
    simp only [List.foldl_nil] at ha
    refine ⟨Or.inl ha, by simp, fun b hb => ?_⟩
    rw [hb] at ha
    cases ha
    exact le_refl _
  | cons e l ih =>
    intro o a ha
    rw [List.foldl_cons] at ha
    obtain ⟨hmem, hdom, hstart⟩ := ih (aStepKey n o e) a ha
    refine ⟨?_, ?_, ?_⟩
    · rcases hmem with hsome | ⟨hal, han⟩
      · unfold aStepKey at hsome
        split at hsome
        · rename_i hcond
          cases o with
          | none =>
            cases hsome
            exact Or.inr ⟨List.mem_cons_self e l, hcond.1⟩
          | some ex =>
            replace hsome : (if ex.archive_mtime ≤ e.archive_mtime
                then some e else some ex) = some a := hsome
            by_cases hle : ex.archive_mtime ≤ e.archive_mtime
            · rw [if_pos hle] at hsome
              cases hsome
              exact Or.inr ⟨List.mem_cons_self e l, hcond.1⟩
            · rw [if_neg hle] at hsome
              cases hsome
              exact Or.inl rfl
        · exact Or.inl hsome
      · exact Or.inr ⟨List.mem_cons_of_mem e hal, han⟩
    · intro x hx hxn hnne
      rcases List.mem_cons.mp hx with rfl | hx'
      · have hcond : x.name = n ∧ n ≠ "" := ⟨hxn, hnne⟩
        unfold aStepKey at hstart
        rw [if_pos hcond] at hstart
        cases o with
        | none => exact hstart x rfl
        | some ex =>
          replace hstart : ∀ b : Entry,
              (if ex.archive_mtime ≤ x.archive_mtime then some x else some ex) = some b →
                b.archive_mtime ≤ a.archive_mtime := hstart
          by_cases hle : ex.archive_mtime ≤ x.archive_mtime
          · rw [if_pos hle] at hstart
            exact hstart x rfl
          · rw [if_neg hle] at hstart
            exact le_trans (le_of_lt (lt_of_not_le hle)) (hstart ex rfl)
      · exact hdom x hx' hxn hnne
    · intro b hb
      unfold aStepKey at hstart
      by_cases hcond : e.name = n ∧ n ≠ ""
      · rw [if_pos hcond, hb] at hstart
        replace hstart : ∀ c : Entry,
            (if b.archive_mtime ≤ e.archive_mtime then some e else some b) = some c →
              c.archive_mtime ≤ a.archive_mtime := hstart
        by_cases hle : b.archive_mtime ≤ e.archive_mtime
        · rw [if_pos hle] at hstart
          exact le_trans hle (hstart e rfl)
        · rw [if_neg hle] at hstart
          exact hstart b rfl
      · rw [if_neg hcond, hb] at hstart
        exact hstart b rfl

theorem lFold_keep (n : String) :
    ∀ (l : List Entry) (o : Option Entry), (∀ e ∈ l, ¬(e.name = n ∧ n ≠ "")) →
      l.foldl (lStepKey n) o = o := by
  intro l
  induction l with
  | nil => intro o _; rfl
  | cons e l ih =>
    intro o h
    rw [List.foldl_cons,
      show lStepKey n o e = o from by
        unfold lStepKey
        rw [if_neg (h e (List.mem_cons_self e l))]]
    exact ih o (fun x hx => h x (List.mem_cons_of_mem e hx))

theorem lFold_fields (n : String) (hn : n ≠ "") :
    ∀ (l : List Entry) (b : Entry), b.name = n →
      ∃ x, l.foldl (lStepKey n) (some b) = some x
        ∧ x.name = n
        ∧ x.archive_path = b.archive_path
        ∧ x.archive_mtime = b.archive_mtime
        ∧ x.archive_windows_count = b.archive_windows_count
        ∧ (x = b ∨ x.live = true) := by
  intro l
  induction l with
  | nil =>
    intro b hb
    exact ⟨b, rfl, hb, rfl, rfl, rfl, Or.inl rfl⟩
  | cons e l ih =>
    intro b hb
    rw [List.foldl_cons]
    by_cases hcond : e.name = n ∧ n ≠ ""
    · rw [show lStepKey n (some b) e = some (liveMerge e b) from by
        unfold lStepKey
        rw [if_pos hcond]]
      obtain ⟨x, hx1, hx2, hx3, hx4, hx5, hx6⟩ :=
        ih (liveMerge e b) (by simp [liveMerge, hcond.1])
      refine ⟨x, hx1, hx2, hx3, hx4, hx5, Or.inr ?_⟩
      rcases hx6 with rfl | hl
      · rfl
      · exact hl
    · rw [show lStepKey n (some b) e = some b from by
        unfold lStepKey
        rw [if_neg hcond]]
      exact ih b hb

theorem lFold_live_of_mem (n : String) (hn : n ≠ "") :
    ∀ (l : List Entry) (b : Entry), b.name = n → (∃ e ∈ l, e.name = n) →
      ∀ x, l.foldl (lStepKey n) (some b) = some x → x.live = true := by
  intro l
  induction l with
  | nil =>
    intro b _ h
    simp at h
  | cons e l ih =>
    intro b hb hex x hx
    rw [List.foldl_cons] at hx
    by_cases hcond : e.name = n ∧ n ≠ ""
    · rw [show lStepKey n (some b) e = some (liveMerge e b) from by
        unfold lStepKey
        rw [if_pos hcond]] at hx
      obtain ⟨y, hy1, _, _, _, _, hy6⟩ :=
        lFold_fields n hn l (liveMerge e b) (by simp [liveMerge, hcond.1])
      rw [hy1] at hx
      cases hx
      rcases hy6 with rfl | hl
      · rfl
      · exact hl
    · rw [show lStepKey n (some b) e = some b from by
        unfold lStepKey
        rw [if_neg hcond]] at hx
      rcases hex with ⟨e', he', hen'⟩
      rcases List.mem_cons.mp he' with rfl | he''
      · exact absurd ⟨hen', hn⟩ hcond
      · exact ih b hb ⟨e', he'', hen'⟩ x hx

theorem find?_key_of_mem_nodup :
    ∀ (d : List (String × Entry)), (dKeys d).Nodup → ∀ p ∈ d,
      List.find? (fun q => q.1 == p.1) d = some p := by
  intro d
  induction d with
  | nil =>
    intro _ p hp
    simp at hp
  | cons a d ih =>
    intro hnd p hp
    have hnd' : (dKeys d).Nodup ∧ a.1 ∉ dKeys d := by
      have := List.nodup_cons.mp (show (a.1 :: dKeys d).Nodup by simpa [dKeys] using hnd)
      exact ⟨this.2, this.1⟩
    rcases List.mem_cons.mp hp with rfl | hp'
    · exact List.find?_cons_of_pos _ (by simp)
    · have ha : ¬ a.1 = p.1 := by
        intro h
        exact hnd'.2 (h ▸ List.mem_map.mpr ⟨p, hp', rfl⟩)
      rw [List.find?_cons_of_neg _ (by simpa using ha)]
      exact ih hnd'.1 p hp'

theorem dGet_eq_some_iff (d : List (String × Entry)) (hwf : dWF d) (n : String) (x : Entry) :
    dGet d n = some x ↔ (x ∈ d.map (fun p => p.2) ∧ x.name = n) := by
  constructor
  · intro h
    unfold dGet at h
    cases hfd : List.find? (fun p => p.1 == n) d with
    | none =>
      rw [hfd] at h
      exact absurd h (by simp)
    | some p =>
      rw [hfd] at h
      have h2 : p.2 = x := by simpa using h
      have hp := List.mem_of_find?_eq_some hfd
      have hkey : p.1 = n := by simpa using List.find?_some hfd
      refine ⟨List.mem_map.mpr ⟨p, hp, h2⟩, ?_⟩
      rw [← h2, hwf.2 p hp, hkey]
  · rintro ⟨hmem, hname⟩
    obtain ⟨p, hp, hp2⟩ := List.mem_map.mp hmem
    have hkey : p.1 = n := by rw [← hwf.2 p hp, hp2, hname]
    unfold dGet
    rw [show (fun q : String × Entry => q.1 == n) = (fun q => q.1 == p.1) from by rw [hkey]]
    rw [find?_key_of_mem_nodup d hwf.1 p hp]
    simp [hp2]

end Tbox

open Tbox in
/-- C10 (amended): `merge_sessions` keeps at most one entry per name (the
result's names are distinct); for a NON-EMPTY name present only in the
archived list the result keeps an archived entry of maximal archive mtime
among its duplicates; a NON-EMPTY name present in both lists yields an entry
marked live that still carries the kept archived entry's archive_path,
archive_mtime and archive_windows_count; and the result is ordered live
first, then archive mtime descending, ties by name ascending. (Entries named
by the empty string are skipped entirely, which is the one correction to the
claim — see the counterexample.) -/
theorem c10_merge_sessions (live archived : List Entry) :
    ((merge_sessions live archived).map Entry.name).Nodup
    ∧ (merge_sessions live archived).Pairwise keyLe
    ∧ (∀ n : String, n ≠ "" →
        (∃ e ∈ archived, e.name = n) → (∀ e ∈ live, e.name ≠ n) →
        ∃ a, a ∈ archived ∧ a.name = n
          ∧ (∀ e ∈ archived, e.name = n → e.archive_mtime ≤ a.archive_mtime)
          ∧ a ∈ merge_sessions live archived
          ∧ ∀ x ∈ merge_sessions live archived, x.name = n → x = a)
    ∧ (∀ n : String, n ≠ "" →
        (∃ e ∈ archived, e.name = n) → (∃ e ∈ live, e.name = n) →
        ∃ a x, a ∈ archived ∧ a.name = n
          ∧ (∀ e ∈ archived, e.name = n → e.archive_mtime ≤ a.archive_mtime)
          ∧ x ∈ merge_sessions live archived ∧ x.name = n ∧ x.live = true
          ∧ x.archive_path = a.archive_path
          ∧ x.archive_mtime = a.archive_mtime
          ∧ x.archive_windows_count = a.archive_windows_count
          ∧ ∀ y ∈ merge_sessions live archived, y.name = n → y = x) := by
  have hwfA : dWF (archived.foldl archStep []) :=
    dWF_foldl_arch archived [] ⟨List.nodup_nil, by simp⟩
  have hwfF : dWF (live.foldl liveStep (archived.foldl archStep [])) :=
    dWF_foldl_live live _ hwfA
  have hms : merge_sessions live archived
      = List.insertionSort keyLe
          ((live.foldl liveStep (archived.foldl archStep [])).map (fun p => p.2)) := rfl
  have hperm : (merge_sessions live archived).Perm
      ((live.foldl liveStep (archived.foldl archStep [])).map (fun p => p.2)) := by
    rw [hms]
    exact List.perm_insertionSort keyLe _
  have harch : ∀ n : String, n ≠ "" → (∃ e ∈ archived, e.name = n) →
      ∃ a, dGet (archived.foldl archStep []) n = some a
        ∧ a ∈ archived ∧ a.name = n
        ∧ ∀ e ∈ archived, e.name = n → e.archive_mtime ≤ a.archive_mtime := by
    rintro n hn ⟨ea, hea, hean⟩
    have hproj : dGet (archived.foldl archStep []) n
        = archived.foldl (aStepKey n) none := by
      rw [dGet_foldl_archStep]
      rfl
    cases hres : archived.foldl (aStepKey n) none with
    | none =>
      rw [aFold_none_iff] at hres
      exact absurd ⟨hean, hn⟩ (hres.2 ea hea)
    | some a =>
      obtain ⟨hmem, hdom, _⟩ := aFold_some_spec n archived none a hres
      rcases hmem with h | ⟨h1, h2⟩
      · exact Option.noConfusion h
      · exact ⟨a, by rw [hproj, hres], h1, h2, fun e he hen => hdom e he hen hn⟩
  refine ⟨?_, ?_, ?_, ?_⟩
  · have h1 : ((live.foldl liveStep (archived.foldl archStep [])).map
          (fun p => p.2)).map Entry.name
        = dKeys (live.foldl liveStep (archived.foldl archStep [])) := by
      rw [List.map_map]
      unfold dKeys
      exact List.map_congr_left (fun p hp => hwfF.2 p hp)
    have hvn : (((live.foldl liveStep (archived.foldl archStep [])).map
        (fun p => p.2)).map Entry.name).Nodup := by
      rw [h1]
      exact hwfF.1
    exact ((hperm.map Entry.name).symm).nodup hvn
  · rw [hms]
    exact List.sorted_insertionSort keyLe _
  · intro n hn hex hlive
    obtain ⟨a, hgetA, haA, han, hdom⟩ := harch n hn hex
    have hgetF : dGet (live.foldl liveStep (archived.foldl archStep [])) n = some a := by
      rw [dGet_foldl_liveStep, hgetA]
      exact lFold_keep n live (some a) (fun e he hc => hlive e he hc.1)
    have hmm : a ∈ merge_sessions live archived :=
      (hperm.mem_iff).mpr ((dGet_eq_some_iff _ hwfF n a).mp hgetF).1
    refine ⟨a, haA, han, hdom, hmm, ?_⟩
    intro x hx hxn
    have hgx : dGet (live.foldl liveStep (archived.foldl archStep [])) n = some x :=
      (dGet_eq_some_iff _ hwfF n x).mpr ⟨(hperm.mem_iff).mp hx, hxn⟩
    rw [hgetF] at hgx
    exact (Option.some_inj.mp hgx).symm
  · intro n hn hexA hexL
    obtain ⟨a, hgetA, haA, han, hdom⟩ := harch n hn hexA
    obtain ⟨x, hx1, hx2, hx3, hx4, hx5, _⟩ := lFold_fields n hn live a han
    have hxlive : x.live = true := lFold_live_of_mem n hn live a han hexL x hx1
    have hgetF : dGet (live.foldl liveStep (archived.foldl archStep [])) n = some x := by
      rw [dGet_foldl_liveStep, hgetA]
      exact hx1
    have hmm : x ∈ merge_sessions live archived :=
      (hperm.mem_iff).mpr ((dGet_eq_some_iff _ hwfF n x).mp hgetF).1
    refine ⟨a, x, haA, han, hdom, hmm, hx2, hxlive, hx3, hx4, hx5, ?_⟩
    intro y hy hyn
    have hgy : dGet (live.foldl liveStep (archived.foldl archStep [])) n = some y :=
      (dGet_eq_some_iff _ hwfF n y).mpr ⟨(hperm.mem_iff).mp hy, hyn⟩
    rw [hgetF] at hgy
    exact (Option.some_inj.mp hgy).symm

open Tbox in
/-- C10 counterexample: an entry whose name is the empty string, present
only in the archived list, is NOT kept — `merge_sessions` drops it and
returns the empty list, refuting the claim as stated for that name. -/
theorem c10_counterexample :
    merge_sessions [] [Entry.mk "" false none (some "/e.json") 5 none] = [] := rfl

open Tbox in
/-- C10 witness: two archived duplicates of "work" and one live "work"
session, via `c10_merge_sessions`: the merged result carries the newer
archive's fields on a live-marked entry. -/
theorem c10_witness :
    (("work" : String) ≠ ""
      ∧ (∃ e ∈ [Entry.mk "work" false none (some "/a.json") 5 (some 2),
                Entry.mk "work" false none (some "/b.json") 3 (some 1)], e.name = "work")
      ∧ (∃ e ∈ [Entry.mk "work" true (some 4) none 0 none], e.name = "work"))
    ∧ (∃ a x,
        a ∈ [Entry.mk "work" false none (some "/a.json") 5 (some 2),
             Entry.mk "work" false none (some "/b.json") 3 (some 1)]
        ∧ a.name = "work"
        ∧ (∀ e ∈ [Entry.mk "work" false none (some "/a.json") 5 (some 2),
                  Entry.mk "work" false none (some "/b.json") 3 (some 1)],
            e.name = "work" → e.archive_mtime ≤ a.archive_mtime)
        ∧ x ∈ merge_sessions [Entry.mk "work" true (some 4) none 0 none]
              [Entry.mk "work" false none (some "/a.json") 5 (some 2),
               Entry.mk "work" false none (some "/b.json") 3 (some 1)]
        ∧ x.name = "work" ∧ x.live = true
        ∧ x.archive_path = a.archive_path
        ∧ x.archive_mtime = a.archive_mtime
        ∧ x.archive_windows_count = a.archive_windows_count
        ∧ ∀ y ∈ merge_sessions [Entry.mk "work" true (some 4) none 0 none]
              [Entry.mk "work" false none (some "/a.json") 5 (some 2),
               Entry.mk "work" false none (some "/b.json") 3 (some 1)],
            y.name = "work" → y = x) :=
  ⟨⟨by decide,
    ⟨Entry.mk "work" false none (some "/a.json") 5 (some 2), by simp, rfl⟩,
    ⟨Entry.mk "work" true (some 4) none 0 none, by simp, rfl⟩⟩,
   (c10_merge_sessions [Entry.mk "work" true (some 4) none 0 none]
      [Entry.mk "work" false none (some "/a.json") 5 (some 2),
       Entry.mk "work" false none (some "/b.json") 3 (some 1)]).2.2.2 "work"
      (by decide)
      ⟨Entry.mk "work" false none (some "/a.json") 5 (some 2), by simp, rfl⟩
      ⟨Entry.mk "work" true (some 4) none 0 none, by simp, rfl⟩⟩
